import Mathlib

/-!
Verification of the api_proxy_gateway request-pipeline components.

The definitions below are shallow embeddings of the Rust sources:
* `src/crates/gateway/src/circuit_breaker.rs` (`CircuitBreakerInner`),
* `src/crates/gateway/src/rate_limiter.rs` (`TokenBucket`),
* `src/bins/proxy/src/retry.rs` (`RetryPolicy`, `retry_with_policy`),
* `src/crates/gateway/src/proxy.rs` (`summarize_query`, `upstream_request_filter`).

Time (`Instant`) is modelled as a natural number of milliseconds; a
monotonic clock never runs backwards, so `Instant::elapsed` becomes
truncated natural subtraction.  `u64` quantities that stay far below
`2^64` in every behaviour a claim quantifies over are modelled as `Nat`;
where wrap-around is reachable (the backoff multiplication
`backoff_base * 2^(attempt-1)` in `wait_before_retry`) the reduction
modulo `2^64` is written out explicitly.
-/

namespace Gateway

/-! ## Circuit breaker (`circuit_breaker.rs`) -/

inductive CircuitState where
  | Closed
  | Open
  | HalfOpen
deriving DecidableEq, Repr

structure CircuitBreakerInner where
  state : CircuitState
  failure_count : Nat
  success_count : Nat
  last_failure_time : Option Nat
  failure_threshold : Nat
  recovery_timeout : Nat
  half_open_max_calls : Nat
deriving DecidableEq, Repr

/-- Rust `CircuitBreakerInner::new`. -/
def CircuitBreakerInner.new (failure_threshold recovery_timeout half_open_max_calls : Nat) :
    CircuitBreakerInner :=
  { state := .Closed
    failure_count := 0
    success_count := 0
    last_failure_time := none
    failure_threshold := failure_threshold
    recovery_timeout := recovery_timeout
    half_open_max_calls := half_open_max_calls }

/-- Rust `CircuitBreakerInner::can_execute`, with `Instant::now()` passed in as `now`.
`last_failure.elapsed()` is `now - last_failure` on the monotonic clock. -/
def CircuitBreakerInner.canExecute (cb : CircuitBreakerInner) (now : Nat) :
    Bool × CircuitBreakerInner :=
  match cb.state with
  | .Closed => (true, cb)
  | .Open =>
    match cb.last_failure_time with
    | some last_failure =>
      if cb.recovery_timeout ≤ now - last_failure then
        (true, { cb with state := .HalfOpen, success_count := 0 })
      else
        (false, cb)
    | none => (false, cb)
  | .HalfOpen => (decide (cb.success_count < cb.half_open_max_calls), cb)

/-- Rust `CircuitBreakerInner::record_success`. -/
def CircuitBreakerInner.recordSuccess (cb : CircuitBreakerInner) : CircuitBreakerInner :=
  match cb.state with
  | .Closed => { cb with failure_count := 0 }
  | .HalfOpen =>
    let s := cb.success_count + 1
    if cb.half_open_max_calls ≤ s then
      { cb with state := .Closed, failure_count := 0, success_count := 0,
                last_failure_time := none }
    else
      { cb with success_count := s }
  | .Open =>
    { cb with state := .Closed, failure_count := 0, success_count := 0,
              last_failure_time := none }

/-- Rust `CircuitBreakerInner::record_failure`, with `Instant::now()` passed in as `now`. -/
def CircuitBreakerInner.recordFailure (cb : CircuitBreakerInner) (now : Nat) :
    CircuitBreakerInner :=
  match cb.state with
  | .Closed =>
    let f := cb.failure_count + 1
    if cb.failure_threshold ≤ f then
      { cb with failure_count := f, state := .Open, last_failure_time := some now }
    else
      { cb with failure_count := f }
  | .HalfOpen =>
    { cb with state := .Open, failure_count := cb.failure_count + 1,
              last_failure_time := some now, success_count := 0 }
  | .Open =>
    { cb with failure_count := cb.failure_count + 1, last_failure_time := some now }

/-! ## Retry engine (`retry.rs`) -/

/-- Substring search on character lists (the semantics of Rust
`str::contains`). -/
def seqSearch (needle : List Char) : List Char → Bool
  | [] => needle.isEmpty
  | c :: rest => needle.isPrefixOf (c :: rest) || seqSearch needle rest

/-- Rust `haystack.contains(pattern)` for strings. -/
def strHasSub (haystack pattern : String) : Bool :=
  seqSearch pattern.data haystack.data

/-- ASCII lower-casing, the behaviour of `str::to_lowercase` on the ASCII
error messages the retry engine inspects. -/
def lowerAscii (s : String) : String :=
  ⟨s.data.map Char.toLower⟩

/-- The substring classification inside `RetryPolicy::should_retry`
(`retry.rs` lines 62-71): an error string is retryable iff its lower-cased
form contains one of the seven listed substrings. -/
def isRetryableMessage (s : String) : Bool :=
  let error_str := lowerAscii s
  strHasSub error_str "timeout" || strHasSub error_str "connection" ||
  strHasSub error_str "network" || strHasSub error_str "temporary" ||
  strHasSub error_str "503" || strHasSub error_str "502" ||
  strHasSub error_str "504"

/-- Rust `RetryPolicy` (`retry.rs`).  Durations are `Nat` milliseconds as produced
by `Duration::as_millis() as u64`. -/
structure RetryPolicy where
  max_attempts : Nat
  backoff_base : Nat
  backoff_max : Nat
  enabled : Bool
deriving DecidableEq, Repr

/-- Rust `RetryPolicy::max_attempts` (the effective attempt budget). -/
def RetryPolicy.maxAttempts (p : RetryPolicy) : Nat :=
  if p.enabled then p.max_attempts else 1

/-- Rust `RetryPolicy::should_retry`, with the error replaced by its `Display`
string (the only thing the source inspects). -/
def RetryPolicy.shouldRetry (p : RetryPolicy) (attempt : Nat) (error : String) : Bool :=
  if !p.enabled then false
  else if p.max_attempts ≤ attempt then false
  else isRetryableMessage error

/-- The sleep performed by `RetryPolicy::wait_before_retry`: `none` when the
function returns without sleeping (`!enabled || attempt == 0`), otherwise the
slept duration `min(backoff_base * 2^(attempt-1), backoff_max)` in
milliseconds.  The multiplication `backoff_base.as_millis() as u64 *
2_u64.pow(attempt - 1)` is `u64` arithmetic, hence the reduction mod `2^64`. -/
def RetryPolicy.waitMillis (p : RetryPolicy) (attempt : Nat) : Option Nat :=
  if !p.enabled || attempt == 0 then none
  else some (min ((p.backoff_base * 2 ^ (attempt - 1)) % 2 ^ 64) p.backoff_max)

/-- The duration slept by `wait_before_retry(attempt)` on its sleeping path. -/
def RetryPolicy.waitAmount (p : RetryPolicy) (attempt : Nat) : Nat :=
  min ((p.backoff_base * 2 ^ (attempt - 1)) % 2 ^ 64) p.backoff_max

/-- The loop of `retry_with_policy` (`retry.rs` lines 115-153), from loop
index `attempt` with `rem` iterations left and `last_error` accumulated.
The operation is given by the value it returns on each 0-based invocation
index; errors are their `Display` strings.  Returns the number of operation
invocations performed, the list of sleeps in order, and the overall result —
`none` models the `last_error.unwrap()` panic after a zero-iteration loop. -/
def retryRun {α : Type} (p : RetryPolicy) (op : Nat → Except String α) :
    Nat → Nat → Option String → Nat × List Nat × Option (Except String α)
  | _, 0, lastErr => (0, [], lastErr.map Except.error)
  | attempt, rem + 1, _lastErr =>
    let sl : List Nat :=
      match p.waitMillis attempt with
      | some d => [d]
      | none => []
    match op attempt with
    | .ok v => (1, sl, some (.ok v))
    | .error e =>
      if decide (attempt + 1 < p.maxAttempts) && p.shouldRetry (attempt + 1) e then
        let r := retryRun p op (attempt + 1) rem (some e)
        (r.1 + 1, sl ++ r.2.1, r.2.2)
      else
        (1, sl, some (.error e))

/-- Rust `retry_with_policy(policy, operation)`. -/
def retryWithPolicy {α : Type} (p : RetryPolicy) (op : Nat → Except String α) :
    Nat × List Nat × Option (Except String α) :=
  retryRun p op 0 p.maxAttempts none

/-- A sequence of consecutive `record_failure` calls at the given instants. -/
def foldFailures (cb : CircuitBreakerInner) (ts : List Nat) : CircuitBreakerInner :=
  ts.foldl CircuitBreakerInner.recordFailure cb

/-! ## Token bucket (`rate_limiter.rs`) -/

/-- Rust `TokenBucket`.  `Instant`s are `Nat` milliseconds. -/
structure TokenBucket where
  capacity : Nat
  tokens : Nat
  refill_rate : Nat
  last_refill : Nat
deriving DecidableEq, Repr

/-- Rust `TokenBucket::new(capacity, refill_rate)` created at instant `now`. -/
def TokenBucket.new (capacity refill_rate now : Nat) : TokenBucket :=
  { capacity := capacity, tokens := capacity, refill_rate := refill_rate,
    last_refill := now }

/-- Rust `TokenBucket::refill` at instant `now`.  The source computes
`(elapsed.as_secs_f64() * refill_rate as f64) as u64`; in exact arithmetic,
with `elapsed` in milliseconds, that is `elapsed * refill_rate / 1000`
rounded toward zero. -/
def TokenBucket.refill (b : TokenBucket) (now : Nat) : TokenBucket :=
  let elapsed := now - b.last_refill
  let tokens_to_add := elapsed * b.refill_rate / 1000
  if 0 < tokens_to_add then
    { b with tokens := min (b.tokens + tokens_to_add) b.capacity, last_refill := now }
  else
    b

/-- Rust `TokenBucket::try_acquire` at instant `now`. -/
def TokenBucket.tryAcquire (b : TokenBucket) (now tokens : Nat) : Bool × TokenBucket :=
  let b' := b.refill now
  if tokens ≤ b'.tokens then
    (true, { b' with tokens := b'.tokens - tokens })
  else
    (false, b')

/-- One `check_rate_limit` call (`try_acquire(1)`) at instant `now`, threaded
through a `(bucket, successes-in-window)` accumulator; the success counter is
bumped when the call succeeds inside the window `[t, t + d]`. -/
def stepCall (t d : Nat) (s : TokenBucket × Nat) (now : Nat) : TokenBucket × Nat :=
  let r := s.1.tryAcquire now 1
  (r.2, s.2 + if r.1 && decide (t ≤ now) && decide (now ≤ t + d) then 1 else 0)

/-- Run a sequence of `check` calls at the given instants, counting the
successes that fall inside the window `[t, t + d]`. -/
def runWindow (t d : Nat) (b : TokenBucket) (calls : List Nat) : TokenBucket × Nat :=
  calls.foldl (stepCall t d) (b, 0)

/-- Window-credit bound used in the token-bucket proof: 0 while the bucket's
`last_refill` still predates the window start `t`, and
`(last_refill - t) * rate / 1000 + 1` once a refill has happened inside the
window. -/
def winB (t : Nat) (b : TokenBucket) : Nat :=
  if b.last_refill ≤ t then 0
  else (b.last_refill - t) * b.refill_rate / 1000 + 1

/-- Invariant carried along a call sequence for the window `[t, _]`, where `m`
bounds all call instants seen so far: tokens never exceed capacity,
`last_refill` never runs ahead of the clock, the successes-plus-tokens sum is
bounded by capacity plus the window credit, and while `last_refill ≤ t` any
window success witnesses an instant `u ∈ [t, m]` whose elapsed refill credit
was still below one token. -/
def BucketInv (t m : Nat) (s : TokenBucket × Nat) : Prop :=
  s.1.tokens ≤ s.1.capacity ∧
  s.1.last_refill ≤ m ∧
  s.2 + s.1.tokens ≤ s.1.capacity + winB t s.1 ∧
  (s.1.last_refill ≤ t → 1 ≤ s.2 →
    ∃ u, t ≤ u ∧ u ≤ m ∧ (u - s.1.last_refill) * s.1.refill_rate < 1000)

/-! ## Proxy hooks (`proxy.rs`) -/

/-- Everything after the first occurrence of `sep` (Rust `str::find` plus
slicing), or `none` when `sep` does not occur. -/
def afterFirst (sep : Char) : List Char → Option (List Char)
  | [] => none
  | c :: rest => if c = sep then some rest else afterFirst sep rest

/-- Rust `str::split(sep)` for a one-character separator, on character
lists. -/
def splitListOn (sep : Char) : List Char → List (List Char)
  | [] => [[]]
  | c :: rest =>
    let r := splitListOn sep rest
    if c = sep then
      [] :: r
    else
      match r with
      | [] => [[c]]
      | g :: gs => (c :: g) :: gs

/-- Rust `summarize_query` (`proxy.rs` lines 38-51): the list of
query-parameter names appearing after the first `?` of the URI. -/
def summarizeQuery (uri : String) : List String :=
  match afterFirst '?' uri.data with
  | some q =>
    (splitListOn '&' q).filterMap fun pair =>
      if pair.isEmpty then none
      else
        match splitListOn '=' pair with
        | [] => none
        | key :: _ => if key.isEmpty then none else some (String.mk key)
  | none => []

/-- The request-derived fields of the `request_start` log record emitted by
`LB::request_filter` (`proxy.rs` lines 62-74): the method, the full URI and
the summarised query keys. -/
structure RequestStartRecord where
  method : String
  uri : String
  query_keys : List String
deriving DecidableEq, Repr

/-- The `request_start` record for a request with the given method and URI. -/
def requestStartRecord (method uri : String) : RequestStartRecord :=
  { method := method, uri := uri, query_keys := summarizeQuery uri }

/-- The slice of Rust `ProxyConfig` that `upstream_request_filter` reads; the
policy sub-configs are modelled separately (`RetryPolicy` etc.). -/
structure ProxyConfig where
  upstreams : List String
deriving DecidableEq, Repr

/-- Rust `RequestCtx` as far as `upstream_request_filter` uses it; the UUID
generated in `new_ctx` is abstracted to its string form. -/
structure RequestCtx where
  request_id : String
  upstream_addr : Option String
deriving DecidableEq, Repr

/-- The two headers `LB::upstream_request_filter` inserts into the forwarded
request. -/
structure UpstreamRequest where
  host : Option String
  x_request_id : Option String
deriving DecidableEq, Repr

/-- Rust `LB::upstream_request_filter` (`proxy.rs` lines 135-151): `Host` is
set to the first configured upstream (or `"127.0.0.1:8080"` when the list is
empty) and `X-Request-Id` to the context's request id. -/
def upstreamRequestFilter (config : ProxyConfig) (ctx : RequestCtx)
    (req : UpstreamRequest) : UpstreamRequest :=
  let req1 :=
    match config.upstreams.head? with
    | some first_upstream => { req with host := some first_upstream }
    | none => { req with host := some "127.0.0.1:8080" }
  { req1 with x_request_id := some ctx.request_id }

/-- The state predicate of claim C5: `Closed` keeps `success_count = 0`,
`HalfOpen` keeps `success_count < half_open_max_calls`, `Open` always has a
failure instant recorded. -/
def BreakerInv (cb : CircuitBreakerInner) : Prop :=
  (cb.state = .Closed → cb.success_count = 0) ∧
  (cb.state = .HalfOpen → cb.success_count < cb.half_open_max_calls) ∧
  (cb.state = .Open → cb.last_failure_time ≠ none)

end Gateway

/-! ## Theorems -/

open Gateway

theorem foldFailures_nil (cb : CircuitBreakerInner) : foldFailures cb [] = cb := rfl

theorem foldFailures_cons (cb : CircuitBreakerInner) (t : Nat) (ts : List Nat) :
    foldFailures cb (t :: ts) = foldFailures (cb.recordFailure t) ts := rfl

/-- While strictly below the threshold, consecutive failures keep the breaker
closed and just accumulate `failure_count`. -/
theorem foldFailures_stays_closed : ∀ (ts : List Nat) (cb : CircuitBreakerInner),
    cb.state = .Closed →
    cb.failure_count + ts.length < cb.failure_threshold →
    (foldFailures cb ts).state = .Closed ∧
    (foldFailures cb ts).failure_count = cb.failure_count + ts.length ∧
    (foldFailures cb ts).failure_threshold = cb.failure_threshold
  | [], cb, hs, _ => ⟨hs, by simp [foldFailures_nil], rfl⟩
  | t :: ts, cb, hs, hlt => by
    rw [foldFailures_cons]
    have hstep : cb.recordFailure t = { cb with failure_count := cb.failure_count + 1 } := by
      have hno : ¬ cb.failure_threshold ≤ cb.failure_count + 1 := by
        simp at hlt; omega
      simp [CircuitBreakerInner.recordFailure, hs, hno]
    rw [hstep]
    obtain ⟨ha, hb, hc⟩ := foldFailures_stays_closed ts
      { cb with failure_count := cb.failure_count + 1 }
      (by simp [hs]) (by simp at hlt ⊢; omega)
    refine ⟨ha, ?_, ?_⟩
    · rw [hb]; simp; omega
    · rw [hc]

/-- Once `failure_count` reaches the threshold the breaker is open. -/
theorem foldFailures_opens : ∀ (ts : List Nat) (cb : CircuitBreakerInner),
    cb.state = .Closed →
    cb.failure_count + ts.length = cb.failure_threshold →
    0 < ts.length →
    (foldFailures cb ts).state = .Open
  | [], _, _, _, hpos => absurd hpos (by simp)
  | t :: ts, cb, hs, heq, _ => by
    rw [foldFailures_cons]
    by_cases hlast : ts.length = 0
    · obtain rfl : ts = [] := List.length_eq_zero.mp hlast
      have hth : cb.failure_threshold ≤ cb.failure_count + 1 := by simp at heq; omega
      simp [foldFailures_nil, CircuitBreakerInner.recordFailure, hs, hth]
    · have hno : ¬ cb.failure_threshold ≤ cb.failure_count + 1 := by
        simp at heq; omega
      have hstep : cb.recordFailure t = { cb with failure_count := cb.failure_count + 1 } := by
        simp [CircuitBreakerInner.recordFailure, hs, hno]
      rw [hstep]
      exact foldFailures_opens ts _ (by simp [hs]) (by simp at heq ⊢; omega)
        (Nat.pos_of_ne_zero hlast)

/-- C3: Starting from a fresh breaker with `failure_threshold = T ≥ 1`,
exactly `T` consecutive `record_failure` calls open the circuit, any strictly
shorter sequence leaves it closed, and a `record_success` in `Closed` resets
`failure_count` to 0 so that `T` further consecutive failures are again needed
(and fewer than `T` leave it closed). -/
theorem c3_thresholding (ft rt hm : Nat) (hft : 1 ≤ ft) :
    (∀ ts : List Nat, ts.length < ft →
      (foldFailures (CircuitBreakerInner.new ft rt hm) ts).state = .Closed) ∧
    (∀ ts : List Nat, ts.length = ft →
      (foldFailures (CircuitBreakerInner.new ft rt hm) ts).state = .Open) ∧
    (∀ cb : CircuitBreakerInner, cb.state = .Closed → cb.failure_threshold = ft →
      cb.recordSuccess.failure_count = 0 ∧ cb.recordSuccess.state = .Closed ∧
      (∀ ts : List Nat, ts.length < ft →
        (foldFailures cb.recordSuccess ts).state = .Closed) ∧
      (∀ ts : List Nat, ts.length = ft →
        (foldFailures cb.recordSuccess ts).state = .Open)) := by
  refine ⟨?_, ?_, ?_⟩
  · intro ts hlen
    exact (foldFailures_stays_closed ts _ rfl
      (by simp [CircuitBreakerInner.new]; omega)).1
  · intro ts hlen
    exact foldFailures_opens ts _ rfl
      (by simp [CircuitBreakerInner.new]; omega) (by omega)
  · intro cb hcs hth
    have hstep : cb.recordSuccess = { cb with failure_count := 0 } := by
      simp [CircuitBreakerInner.recordSuccess, hcs]
    rw [hstep]
    refine ⟨rfl, hcs, ?_, ?_⟩
    · intro ts hlen
      exact (foldFailures_stays_closed ts { cb with failure_count := 0 } hcs
        (by simp [hth]; omega)).1
    · intro ts hlen
      exact foldFailures_opens ts { cb with failure_count := 0 } hcs
        (by simp [hth, hlen]) (by omega)

/-- Witness for C3 with `T = 3`: two failures keep a fresh breaker closed, three
open it; after a success in a closed breaker with `failure_count = 2`, the count
is back to 0 and three further failures are needed. -/
theorem c3_thresholding_witness :
    let cb : CircuitBreakerInner :=
      { state := .Closed, failure_count := 2, success_count := 0,
        last_failure_time := none, failure_threshold := 3,
        recovery_timeout := 30000, half_open_max_calls := 1 }
    (foldFailures (CircuitBreakerInner.new 3 30000 1) [10, 20]).state = .Closed ∧
    (foldFailures (CircuitBreakerInner.new 3 30000 1) [10, 20, 30]).state = .Open ∧
    cb.recordSuccess.failure_count = 0 ∧
    (foldFailures cb.recordSuccess [40, 50]).state = .Closed ∧
    (foldFailures cb.recordSuccess [40, 50, 60]).state = .Open := by
  intro cb
  have h := c3_thresholding 3 30000 1 (by decide)
  have h3 := h.2.2 cb rfl rfl
  exact ⟨h.1 [10, 20] (by decide), h.2.1 [10, 20, 30] rfl,
    h3.1, h3.2.2.1 [40, 50] (by decide), h3.2.2.2 [40, 50, 60] rfl⟩

/-- C5: The state predicate `BreakerInv` (Closed keeps `success_count = 0`;
HalfOpen keeps `success_count < half_open_max_calls`; Open always has a
recorded failure instant) holds for a fresh breaker and is preserved by
`can_execute`, `record_success` and `record_failure`, given
`half_open_max_calls ≥ 1`. -/
theorem c5_invariant :
    (∀ ft rt hm : Nat, 1 ≤ hm → BreakerInv (CircuitBreakerInner.new ft rt hm)) ∧
    (∀ (cb : CircuitBreakerInner) (now : Nat), 1 ≤ cb.half_open_max_calls →
      BreakerInv cb →
      BreakerInv (cb.canExecute now).2 ∧ BreakerInv cb.recordSuccess ∧
      BreakerInv (cb.recordFailure now)) := by
  constructor
  · intro ft rt hm _
    simp [BreakerInv, CircuitBreakerInner.new]
  · rintro cb now hhm ⟨h1, h2, h3⟩
    refine ⟨?_, ?_, ?_⟩
    · cases hcs : cb.state with
      | Closed =>
        simp only [CircuitBreakerInner.canExecute, hcs]
        exact ⟨h1, h2, h3⟩
      | Open =>
        cases hlf : cb.last_failure_time with
        | none =>
          simp only [CircuitBreakerInner.canExecute, hcs, hlf]
          exact ⟨h1, h2, h3⟩
        | some lf =>
          by_cases hrec : cb.recovery_timeout ≤ now - lf
          · simp [CircuitBreakerInner.canExecute, hcs, hlf, hrec, BreakerInv]
            omega
          · simp only [CircuitBreakerInner.canExecute, hcs, hlf, if_neg hrec]
            exact ⟨h1, h2, h3⟩
      | HalfOpen =>
        simp only [CircuitBreakerInner.canExecute, hcs]
        exact ⟨h1, h2, h3⟩
    · cases hcs : cb.state with
      | Closed =>
        have h1' := h1 hcs
        simp [BreakerInv, CircuitBreakerInner.recordSuccess, hcs, h1']
      | HalfOpen =>
        by_cases hmax : cb.half_open_max_calls ≤ cb.success_count + 1
        · simp [BreakerInv, CircuitBreakerInner.recordSuccess, hcs, hmax]
        · simp [BreakerInv, CircuitBreakerInner.recordSuccess, hcs, hmax]
          omega
      | Open =>
        simp [BreakerInv, CircuitBreakerInner.recordSuccess, hcs]
    · cases hcs : cb.state with
      | Closed =>
        have h1' := h1 hcs
        by_cases hth : cb.failure_threshold ≤ cb.failure_count + 1
        · simp [BreakerInv, CircuitBreakerInner.recordFailure, hcs, hth]
        · simp [BreakerInv, CircuitBreakerInner.recordFailure, hcs, hth, h1']
      | HalfOpen =>
        simp [BreakerInv, CircuitBreakerInner.recordFailure, hcs]
      | Open =>
        simp [BreakerInv, CircuitBreakerInner.recordFailure, hcs]

/-- Witness for C5 at a concrete half-open breaker. -/
theorem c5_invariant_witness :
    let cb : CircuitBreakerInner :=
      { state := .HalfOpen, failure_count := 4, success_count := 1,
        last_failure_time := some 90, failure_threshold := 4,
        recovery_timeout := 30000, half_open_max_calls := 3 }
    BreakerInv (CircuitBreakerInner.new 5 30000 3) ∧
    (BreakerInv (cb.canExecute 200).2 ∧ BreakerInv cb.recordSuccess ∧
     BreakerInv (cb.recordFailure 200)) := by
  intro cb
  refine ⟨c5_invariant.1 5 30000 3 (by decide), ?_⟩
  exact c5_invariant.2 cb 200 (by decide) ⟨by decide, by decide, by decide⟩

/-- C10: In the `Open` state a single `record_success` call transitions the
breaker directly to `Closed` with `failure_count = 0`, `success_count = 0` and
`last_failure_time` cleared, bypassing `HalfOpen` entirely. -/
theorem c10_open_success_resets (cb : CircuitBreakerInner) (h : cb.state = .Open) :
    (cb.recordSuccess).state = .Closed ∧
    (cb.recordSuccess).failure_count = 0 ∧
    (cb.recordSuccess).success_count = 0 ∧
    (cb.recordSuccess).last_failure_time = none := by
  simp [CircuitBreakerInner.recordSuccess, h]

/-- Witness for C10 at a concrete open breaker. -/
theorem c10_open_success_resets_witness :
    let cb : CircuitBreakerInner :=
      { state := .Open, failure_count := 7, success_count := 0,
        last_failure_time := some 42, failure_threshold := 5,
        recovery_timeout := 30000, half_open_max_calls := 3 }
    cb.state = .Open ∧
    (cb.recordSuccess).state = .Closed ∧
    (cb.recordSuccess).failure_count = 0 ∧
    (cb.recordSuccess).success_count = 0 ∧
    (cb.recordSuccess).last_failure_time = none := by
  refine ⟨rfl, ?_⟩
  exact c10_open_success_resets _ rfl

/-- C4: In `Open` with `last_failure_time = some tf`: a `can_execute` call at
a time strictly earlier than `tf + recovery_timeout` returns `false` and leaves
the state unchanged (hence `Open`); a call at or after that instant returns
`true` and moves the breaker to `HalfOpen` with `success_count = 0`.  The
hypothesis `tf ≤ now` reflects the monotonic clock (`tf` was produced by an
earlier `Instant::now()`). -/
theorem c4_open_recovery (cb : CircuitBreakerInner) (now tf : Nat)
    (hs : cb.state = .Open) (hl : cb.last_failure_time = some tf) (hm : tf ≤ now) :
    (now < tf + cb.recovery_timeout → cb.canExecute now = (false, cb)) ∧
    (tf + cb.recovery_timeout ≤ now →
      (cb.canExecute now).1 = true ∧
      (cb.canExecute now).2.state = .HalfOpen ∧
      (cb.canExecute now).2.success_count = 0) := by
  constructor
  · intro hlt
    have hno : ¬ cb.recovery_timeout ≤ now - tf := by
      intro hle
      have := Nat.add_le_of_le_sub hm hle
      omega
    simp [CircuitBreakerInner.canExecute, hs, hl, hno]
  · intro hge
    have hyes : cb.recovery_timeout ≤ now - tf := by omega
    simp [CircuitBreakerInner.canExecute, hs, hl, hyes]

/-- Witness for C4: a breaker opened at time 100 with a 30-second recovery
timeout rejects at 30099 ms and promotes to half-open at 30100 ms. -/
theorem c4_open_recovery_witness :
    let cb : CircuitBreakerInner :=
      { state := .Open, failure_count := 5, success_count := 0,
        last_failure_time := some 100, failure_threshold := 5,
        recovery_timeout := 30000, half_open_max_calls := 3 }
    (cb.canExecute 30099 = (false, cb)) ∧
    ((cb.canExecute 30100).1 = true ∧
     (cb.canExecute 30100).2.state = .HalfOpen ∧
     (cb.canExecute 30100).2.success_count = 0) := by
  constructor
  · exact (c4_open_recovery _ 30099 100 rfl rfl (by decide)).1 (by decide)
  · exact (c4_open_recovery _ 30100 100 rfl rfl (by decide)).2 (by decide)

/-! ### Retry engine lemmas -/

theorem maxAttempts_of_enabled (p : RetryPolicy) (h : p.enabled = true) :
    p.maxAttempts = p.max_attempts := by
  simp [RetryPolicy.maxAttempts, h]

theorem shouldRetry_of_nonretryable (p : RetryPolicy) (a : Nat) (e : String)
    (h : isRetryableMessage e = false) : p.shouldRetry a e = false := by
  simp [RetryPolicy.shouldRetry, h]

theorem shouldRetry_of_retryable (p : RetryPolicy) (a : Nat) (e : String)
    (hen : p.enabled = true) (hlt : a < p.max_attempts)
    (hr : isRetryableMessage e = true) : p.shouldRetry a e = true := by
  simp [RetryPolicy.shouldRetry, hen, Nat.not_le.mpr hlt, hr]

theorem waitMillis_pos (p : RetryPolicy) (attempt : Nat)
    (hen : p.enabled = true) (ha : 1 ≤ attempt) :
    p.waitMillis attempt = some (p.waitAmount attempt) := by
  have : (attempt == 0) = false := by simp; omega
  simp [RetryPolicy.waitMillis, RetryPolicy.waitAmount, hen, this]

theorem waitMillis_zero (p : RetryPolicy) : p.waitMillis 0 = none := by
  simp [RetryPolicy.waitMillis]

/-- A perpetually retryable-failing operation consumes the whole remaining
budget and surfaces its last error. -/
theorem retryRun_all_retryable {α : Type} (p : RetryPolicy) (msg : Nat → String)
    (hen : p.enabled = true) (hret : ∀ k, isRetryableMessage (msg k) = true) :
    ∀ (rem attempt : Nat) (le : Option String), 1 ≤ rem →
      attempt + rem = p.max_attempts →
      (retryRun p (fun k => (Except.error (msg k) : Except String α)) attempt rem le).1
        = rem ∧
      (retryRun p (fun k => (Except.error (msg k) : Except String α)) attempt rem le).2.2
        = some (Except.error (msg (p.max_attempts - 1))) := by
  intro rem
  induction rem with
  | zero => intro attempt le h1 _; exact absurd h1 (by decide)
  | succ r ih =>
    intro attempt le _ heq
    rcases Nat.eq_zero_or_pos r with hr0 | hrpos
    · subst hr0
      have hcond : decide (attempt + 1 < p.maxAttempts) = false := by
        rw [maxAttempts_of_enabled p hen]
        simp; omega
      have hidx : attempt = p.max_attempts - 1 := by omega
      simp [retryRun, hcond, hidx]
    · have hcond : decide (attempt + 1 < p.maxAttempts) = true := by
        rw [maxAttempts_of_enabled p hen]
        simp; omega
      have hsr : p.shouldRetry (attempt + 1) (msg attempt) = true :=
        shouldRetry_of_retryable p (attempt + 1) (msg attempt) hen (by omega) (hret attempt)
      have hrec := ih (attempt + 1) (some (msg attempt)) hrpos (by omega)
      simp [retryRun, hcond, hsr]
      exact ⟨hrec.1, hrec.2⟩

/-- Sleep trace of a run that starts at a positive loop index: one sleep per
iteration, at the consecutive wait amounts. -/
theorem retryRun_sleeps_pos {α : Type} (p : RetryPolicy) (op : Nat → Except String α)
    (hen : p.enabled = true) :
    ∀ (rem attempt : Nat) (le : Option String), 1 ≤ attempt →
      (retryRun p op attempt rem le).2.1
        = (List.range' attempt (retryRun p op attempt rem le).1).map p.waitAmount := by
  intro rem
  induction rem with
  | zero => intro attempt le _; simp [retryRun]
  | succ r ih =>
    intro attempt le ha
    have hw := waitMillis_pos p attempt hen ha
    cases hop : op attempt with
    | ok v => simp [retryRun, hw, hop]
    | error e =>
      cases hc : decide (attempt + 1 < p.maxAttempts) && p.shouldRetry (attempt + 1) e with
      | false => simp [retryRun, hw, hop, hc]
      | true =>
        have hrec := ih (attempt + 1) (some e) (by omega)
        simp [retryRun, hw, hop, hc, hrec, List.range'_succ]

/-- An operation whose first `k` invocations fail retryably and whose
invocation `k` succeeds short-circuits with its value after `k + 1`
invocations, provided the budget allows reaching invocation `k`. -/
theorem retryRun_success_at {α : Type} (p : RetryPolicy) (op : Nat → Except String α)
    (hen : p.enabled = true) :
    ∀ (k rem attempt : Nat) (le : Option String) (v : α),
      (∀ j, j < k → ∃ e, op (attempt + j) = Except.error e ∧ isRetryableMessage e = true) →
      op (attempt + k) = Except.ok v →
      k < rem → attempt + rem ≤ p.max_attempts →
      (retryRun p op attempt rem le).1 = k + 1 ∧
      (retryRun p op attempt rem le).2.2 = some (Except.ok v) := by
  intro k
  induction k with
  | zero =>
    intro rem attempt le v _ hok hlt _
    obtain ⟨r, rfl⟩ : ∃ r, rem = r + 1 := ⟨rem - 1, by omega⟩
    simp only [Nat.add_zero] at hok
    simp [retryRun, hok]
  | succ kk ih =>
    intro rem attempt le v herr hok hlt hbound
    obtain ⟨r, rfl⟩ : ∃ r, rem = r + 1 := ⟨rem - 1, by omega⟩
    obtain ⟨e, he, hre⟩ := herr 0 (by omega)
    simp only [Nat.add_zero] at he
    have hcond : decide (attempt + 1 < p.maxAttempts) = true := by
      rw [maxAttempts_of_enabled p hen]; simp; omega
    have hsr := shouldRetry_of_retryable p (attempt + 1) e hen (by omega) hre
    have herr2 : ∀ j, j < kk →
        ∃ e2, op (attempt + 1 + j) = Except.error e2 ∧ isRetryableMessage e2 = true := by
      intro j hj
      have h2 := herr (j + 1) (by omega)
      rwa [show attempt + (j + 1) = attempt + 1 + j by omega] at h2
    have hok2 : op (attempt + 1 + kk) = Except.ok v := by
      rwa [show attempt + (kk + 1) = attempt + 1 + kk by omega] at hok
    have hrec := ih r (attempt + 1) (some e) v herr2 hok2 (by omega) (by omega)
    simp [retryRun, he, hcond, hsr]
    exact ⟨hrec.1, hrec.2⟩

/-- A first invocation failing with a non-retryable error stops the loop at
once, surfacing that error. -/
theorem retryRun_first_nonretryable {α : Type} (p : RetryPolicy)
    (op : Nat → Except String α) (e : String) (rem : Nat)
    (h0 : op 0 = Except.error e) (hnr : isRetryableMessage e = false)
    (h1 : 1 ≤ rem) :
    (retryRun p op 0 rem none).1 = 1 ∧
    (retryRun p op 0 rem none).2.2 = some (Except.error e) := by
  obtain ⟨r, rfl⟩ : ∃ r, rem = r + 1 := ⟨rem - 1, by omega⟩
  have hsr := shouldRetry_of_nonretryable p 1 e hnr
  simp [retryRun, h0, hsr]

/-- With `enabled = false` the effective budget is one, so the operation is
invoked exactly once, whatever it does. -/
theorem retryWithPolicy_disabled {α : Type} (p : RetryPolicy)
    (op : Nat → Except String α) (hd : p.enabled = false) :
    (retryWithPolicy p op).1 = 1 := by
  have hma : p.maxAttempts = 1 := by simp [RetryPolicy.maxAttempts, hd]
  rw [retryWithPolicy, hma]
  cases hop : op 0 with
  | ok v => simp [retryRun, hop]
  | error e => simp [retryRun, hop]

/-- C1 evaluation: the selection error `"no upstream available"` produced by
the `select_upstream` closure in `LB::upstream_peer` (constructed in the
source with `RetryableError::retryable`) is NOT classified as retryable by
`RetryPolicy::should_retry`, which ignores the `is_retryable` flag and only
matches substrings; consequently, under an enabled policy with
`max_attempts = 3 ≥ 2`, a perpetually empty healthy set yields exactly ONE
selection invocation, not more than one as claim C1 states. -/
theorem c1_no_upstream_single_invocation :
    isRetryableMessage "no upstream available" = false ∧
    (retryWithPolicy
      { max_attempts := 3, backoff_base := 100, backoff_max := 5000, enabled := true }
      (fun _ => (Except.error "no upstream available" : Except String String))).1 = 1 := by
  exact ⟨by decide, by decide⟩

/-- C2 (amended): for every retry policy with `max_attempts = N ≥ 1` and
`enabled = true`, an operation that always fails with retryable errors (in
the substring sense) is invoked exactly `N` times and the last error is
returned; an operation whose first invocation fails non-retryably is invoked
exactly once; with `enabled = false` the operation is invoked exactly once
regardless; and a first success at invocation `k` short-circuits with the
value after `k + 1` invocations.  (The claim as stated, without `N ≥ 1`,
fails at `N = 0`: see the counterexample.) -/
theorem c2_retry_budget {α : Type} :
    (∀ (p : RetryPolicy) (msg : Nat → String),
      p.enabled = true → 1 ≤ p.max_attempts →
      (∀ k, isRetryableMessage (msg k) = true) →
      (retryWithPolicy p (fun k => (Except.error (msg k) : Except String α))).1
        = p.max_attempts ∧
      (retryWithPolicy p (fun k => (Except.error (msg k) : Except String α))).2.2
        = some (Except.error (msg (p.max_attempts - 1)))) ∧
    (∀ (p : RetryPolicy) (op : Nat → Except String α) (e : String),
      p.enabled = true → 1 ≤ p.max_attempts →
      op 0 = Except.error e → isRetryableMessage e = false →
      (retryWithPolicy p op).1 = 1 ∧
      (retryWithPolicy p op).2.2 = some (Except.error e)) ∧
    (∀ (p : RetryPolicy) (op : Nat → Except String α),
      p.enabled = false → (retryWithPolicy p op).1 = 1) ∧
    (∀ (p : RetryPolicy) (op : Nat → Except String α) (k : Nat) (v : α),
      p.enabled = true → k < p.max_attempts →
      (∀ j, j < k → ∃ e, op j = Except.error e ∧ isRetryableMessage e = true) →
      op k = Except.ok v →
      (retryWithPolicy p op).1 = k + 1 ∧
      (retryWithPolicy p op).2.2 = some (Except.ok v)) := by
  refine ⟨?_, ?_, ?_, ?_⟩
  · intro p msg hen hN hret
    rw [retryWithPolicy, maxAttempts_of_enabled p hen]
    exact retryRun_all_retryable p msg hen hret p.max_attempts 0 none hN (by omega)
  · intro p op e hen hN h0 hnr
    rw [retryWithPolicy, maxAttempts_of_enabled p hen]
    exact retryRun_first_nonretryable p op e p.max_attempts h0 hnr hN
  · intro p op hd
    exact retryWithPolicy_disabled p op hd
  · intro p op k v hen hk herr hok
    rw [retryWithPolicy, maxAttempts_of_enabled p hen]
    exact retryRun_success_at p op hen k p.max_attempts 0 none v
      (by simpa using herr) (by simpa using hok) hk (by omega)

/-- Counterexample to C2 as stated: with `enabled = true` and
`max_attempts = 0` the loop body never runs, so an operation failing with a
non-retryable error is invoked 0 times (the claim says exactly once), and a
perpetually retryable operation produces no "last error" at all — the
post-loop `last_error.unwrap()` panics (modelled as `none`). -/
theorem c2_counterexample :
    (retryWithPolicy
      { max_attempts := 0, backoff_base := 1, backoff_max := 10, enabled := true }
      (fun _ => (Except.error "boom" : Except String Nat))).1 ≠ 1 ∧
    (retryWithPolicy
      { max_attempts := 0, backoff_base := 1, backoff_max := 10, enabled := true }
      (fun _ => (Except.error "timeout" : Except String Nat))).2.2 = none := by
  exact ⟨by decide, rfl⟩

/-- Witness for C2 at concrete policies and operations. -/
theorem c2_retry_budget_witness :
    ((retryWithPolicy
      { max_attempts := 3, backoff_base := 100, backoff_max := 5000, enabled := true }
      (fun _ => (Except.error "connection refused" : Except String Nat))).1 = 3 ∧
     (retryWithPolicy
      { max_attempts := 3, backoff_base := 100, backoff_max := 5000, enabled := true }
      (fun _ => (Except.error "connection refused" : Except String Nat))).2.2
        = some (Except.error "connection refused")) ∧
    ((retryWithPolicy
      { max_attempts := 3, backoff_base := 100, backoff_max := 5000, enabled := true }
      (fun _ => (Except.error "bad gateway" : Except String Nat))).1 = 1 ∧
     (retryWithPolicy
      { max_attempts := 3, backoff_base := 100, backoff_max := 5000, enabled := true }
      (fun _ => (Except.error "bad gateway" : Except String Nat))).2.2
        = some (Except.error "bad gateway")) ∧
    ((retryWithPolicy
      { max_attempts := 3, backoff_base := 100, backoff_max := 5000, enabled := false }
      (fun _ => (Except.error "timeout" : Except String Nat))).1 = 1) ∧
    ((retryWithPolicy
      { max_attempts := 3, backoff_base := 100, backoff_max := 5000, enabled := true }
      (fun j => if j = 0 then (Except.error "timeout" : Except String Nat)
                else Except.ok 42)).1 = 2 ∧
     (retryWithPolicy
      { max_attempts := 3, backoff_base := 100, backoff_max := 5000, enabled := true }
      (fun j => if j = 0 then (Except.error "timeout" : Except String Nat)
                else Except.ok 42)).2.2 = some (Except.ok 42)) := by
  refine ⟨?_, ?_, ?_, ?_⟩
  · exact (c2_retry_budget (α := Nat)).1 _ (fun _ => "connection refused") rfl
      (by decide) (fun _ => rfl)
  · exact (c2_retry_budget (α := Nat)).2.1 _ _ "bad gateway" rfl (by decide) rfl (by decide)
  · exact (c2_retry_budget (α := Nat)).2.2.1 _ _ rfl
  · refine (c2_retry_budget (α := Nat)).2.2.2 _ _ 1 42 rfl (by decide) ?_ rfl
    intro j hj
    match j, hj with
    | 0, _ => exact ⟨"timeout", rfl, by decide⟩

/-- C7 (amended): for an enabled policy, a run of `retry_with_policy` making
`c` invocations performs exactly `c - 1` sleeps, the `k`-th of which
(1-indexed, preceding invocation `k + 1`) lasts
`min(backoff_base * 2^(k-1) mod 2^64, backoff_max)` milliseconds — the `mod
2^64` is `u64` wrap-around of the source's multiplication, and equals the
plain product whenever `backoff_base * 2^(k-1) < 2^64`.  In particular no
sleep precedes the first invocation. -/
theorem c7_backoff {α : Type} (p : RetryPolicy) (op : Nat → Except String α)
    (hen : p.enabled = true) :
    (retryWithPolicy p op).2.1
      = (List.range' 1 ((retryWithPolicy p op).1 - 1)).map
          (fun k => min ((p.backoff_base * 2 ^ (k - 1)) % 2 ^ 64) p.backoff_max) := by
  have hmap : ∀ l : List Nat,
      l.map p.waitAmount
        = l.map (fun k => min ((p.backoff_base * 2 ^ (k - 1)) % 2 ^ 64) p.backoff_max) :=
    fun _ => rfl
  rw [retryWithPolicy]
  cases hma : p.maxAttempts with
  | zero => simp [retryRun]
  | succ m =>
    cases hop : op 0 with
    | ok v => simp [retryRun, hop, waitMillis_zero]
    | error e =>
      cases hc : decide (0 + 1 < p.maxAttempts) && p.shouldRetry (0 + 1) e with
      | false => simp [retryRun, hop, waitMillis_zero, hc]
      | true =>
        have hrec := retryRun_sleeps_pos p op hen m 1 (some e) (by omega)
        simp [retryRun, hop, waitMillis_zero, hc, hrec, hmap]

/-- Witness for C7: with `backoff_base = 100 ms`, `backoff_max = 5000 ms` and
three invocations, the two sleeps are 100 ms and 200 ms. -/
theorem c7_backoff_witness :
    ((retryWithPolicy
      { max_attempts := 3, backoff_base := 100, backoff_max := 5000, enabled := true }
      (fun _ => (Except.error "timeout" : Except String Nat))).2.1
       = (List.range' 1 ((retryWithPolicy
          { max_attempts := 3, backoff_base := 100, backoff_max := 5000, enabled := true }
          (fun _ => (Except.error "timeout" : Except String Nat))).1 - 1)).map
          (fun k => min ((100 * 2 ^ (k - 1)) % 2 ^ 64) 5000)) ∧
    (retryWithPolicy
      { max_attempts := 3, backoff_base := 100, backoff_max := 5000, enabled := true }
      (fun _ => (Except.error "timeout" : Except String Nat))).2.1 = [100, 200] := by
  exact ⟨c7_backoff _ _ rfl, by decide⟩

/-- Counterexample to C7 as stated: the source computes the backoff in `u64`,
so with `backoff_base = 1 ms` the sleep preceding the 66th invocation (the
65th retry) is `min(2^64 mod 2^64, backoff_max) = 0`, not
`min(1 * 2^64, 100000) = 100000` as the un-wrapped formula demands. -/
theorem c7_counterexample :
    (retryWithPolicy
      { max_attempts := 66, backoff_base := 1, backoff_max := 100000, enabled := true }
      (fun _ => (Except.error "timeout" : Except String Nat))).2.1.get? 64 = some 0 ∧
    min (1 * 2 ^ 64) 100000 = 100000 := by
  exact ⟨by decide, by decide⟩

/-- C8 evaluation: `request_filter` logs the *full URI* in its
`request_start` record, and the URI embeds the query-parameter values, so
two requests identical except for a query value produce different records
(they differ in the `uri` field) and the secret value occurs verbatim in the
record — contradicting the claim (and the source's own "sanitised" comment);
only the `query_keys` field is value-free. -/
theorem c8_request_start_leaks_values :
    summarizeQuery "/a?token=secret123&x=1" = ["token", "x"] ∧
    summarizeQuery "/a?token=other&x=1" = ["token", "x"] ∧
    requestStartRecord "GET" "/a?token=secret123&x=1"
      ≠ requestStartRecord "GET" "/a?token=other&x=1" ∧
    strHasSub (requestStartRecord "GET" "/a?token=secret123&x=1").uri "secret123" = true := by
  exact ⟨by decide, by decide, by decide, by decide⟩

/-- C9: whenever the configured upstream list is non-empty, the forwarded
request's `Host` header equals the first configured upstream (whatever peer
was selected, i.e. for every context) and its `X-Request-Id` header equals
the string form of the context's UUID. -/
theorem c9_upstream_headers (config : ProxyConfig) (ctx : RequestCtx)
    (req : UpstreamRequest) (f : String) (rest : List String)
    (h : config.upstreams = f :: rest) :
    (upstreamRequestFilter config ctx req).host = some f ∧
    (upstreamRequestFilter config ctx req).x_request_id = some ctx.request_id := by
  simp [upstreamRequestFilter, h]

/-- Witness for C9 at a concrete configuration and context. -/
theorem c9_upstream_headers_witness :
    (upstreamRequestFilter { upstreams := ["10.0.0.1:9000", "10.0.0.2:9000"] }
      { request_id := "3b9f0c42-5d1e-4a7b-8f06-2f4f7a9d1c55",
        upstream_addr := some "10.0.0.2:9000" }
      { host := none, x_request_id := none }).host = some "10.0.0.1:9000" ∧
    (upstreamRequestFilter { upstreams := ["10.0.0.1:9000", "10.0.0.2:9000"] }
      { request_id := "3b9f0c42-5d1e-4a7b-8f06-2f4f7a9d1c55",
        upstream_addr := some "10.0.0.2:9000" }
      { host := none, x_request_id := none }).x_request_id
        = some "3b9f0c42-5d1e-4a7b-8f06-2f4f7a9d1c55" := by
  exact c9_upstream_headers _ _ _ "10.0.0.1:9000" ["10.0.0.2:9000"] rfl

/-! ### Token bucket lemmas -/

/-- Preservation of `BucketInv` by one `check` call at instant `now`. -/
theorem stepCall_preserves_inv (t d : Nat) (b : TokenBucket) (cnt m now : Nat)
    (hinv : BucketInv t m (b, cnt)) (hmn : m ≤ now) (hnd : now ≤ t + d) :
    BucketInv t now (stepCall t d (b, cnt) now) := by
  obtain ⟨hc1, hc2, hc3, hc4⟩ := hinv
  dsimp only at hc1 hc2 hc3 hc4
  by_cases hadd : 0 < (now - b.last_refill) * b.refill_rate / 1000
  · -- a positive refill happens
    have hrf : b.refill now
        = { b with
            tokens := min (b.tokens + (now - b.last_refill) * b.refill_rate / 1000)
              b.capacity,
            last_refill := now } := by
      simp [TokenBucket.refill, hadd]
    have hcnt0 : now < t → cnt = 0 := by
      intro hlt
      by_contra h0
      obtain ⟨u, hu1, hu2, _⟩ := hc4 (by omega) (by omega)
      omega
    have hmain : cnt
          + min (b.tokens + (now - b.last_refill) * b.refill_rate / 1000) b.capacity
        ≤ b.capacity + (if now ≤ t then 0 else (now - t) * b.refill_rate / 1000 + 1) := by
      by_cases hnt : now ≤ t
      · rw [if_pos hnt]
        by_cases hc0 : cnt = 0
        · subst hc0; omega
        · obtain ⟨u, hu1, hu2, hu3⟩ := hc4 (by omega) (by omega)
          have hu : u = now := by omega
          subst hu
          omega
      · rw [if_neg hnt]
        by_cases hpt : b.last_refill ≤ t
        · have hwb : winB t b = 0 := by simp [winB, hpt]
          rw [hwb] at hc3
          by_cases hc0 : cnt = 0
          · subst hc0; omega
          · obtain ⟨u, hu1, hu2, hu3⟩ := hc4 hpt (by omega)
            have hprod : (now - b.last_refill) * b.refill_rate
                = (now - u) * b.refill_rate + (u - b.last_refill) * b.refill_rate := by
              rw [← Nat.add_mul]
              congr 1
              omega
            have hmul1 : (now - u) * b.refill_rate ≤ (now - t) * b.refill_rate :=
              Nat.mul_le_mul_right _ (by omega)
            omega
        · have hwb : winB t b = (b.last_refill - t) * b.refill_rate / 1000 + 1 := by
            simp [winB, hpt]
          rw [hwb] at hc3
          have hprod : (now - t) * b.refill_rate
              = (now - b.last_refill) * b.refill_rate
                + (b.last_refill - t) * b.refill_rate := by
            rw [← Nat.add_mul]
            congr 1
            omega
          omega
    by_cases htok : 1 ≤ min (b.tokens + (now - b.last_refill) * b.refill_rate / 1000)
        b.capacity
    · by_cases hwin : t ≤ now
      · have hstep : stepCall t d (b, cnt) now
            = ({ b with
                  tokens := min (b.tokens + (now - b.last_refill) * b.refill_rate / 1000)
                    b.capacity - 1,
                  last_refill := now }, cnt + 1) := by
          simp [stepCall, TokenBucket.tryAcquire, hrf, htok, hwin, hnd]
        rw [hstep]
        refine ⟨?_, ?_, ?_, ?_⟩ <;> dsimp only
        · omega
        · omega
        · have hwb : winB t { b with
                tokens := min (b.tokens + (now - b.last_refill) * b.refill_rate / 1000)
                  b.capacity - 1,
                last_refill := now }
              = if now ≤ t then 0 else (now - t) * b.refill_rate / 1000 + 1 := by
            simp [winB]
          rw [hwb]
          omega
        · intro hnow _
          exact ⟨now, hwin, Nat.le_refl _, by simp⟩
      · have hstep : stepCall t d (b, cnt) now
            = ({ b with
                  tokens := min (b.tokens + (now - b.last_refill) * b.refill_rate / 1000)
                    b.capacity - 1,
                  last_refill := now }, cnt) := by
          simp [stepCall, TokenBucket.tryAcquire, hrf, htok, hwin, hnd]
        rw [hstep]
        refine ⟨?_, ?_, ?_, ?_⟩ <;> dsimp only
        · omega
        · omega
        · have hwb : winB t { b with
                tokens := min (b.tokens + (now - b.last_refill) * b.refill_rate / 1000)
                  b.capacity - 1,
                last_refill := now }
              = if now ≤ t then 0 else (now - t) * b.refill_rate / 1000 + 1 := by
            simp [winB]
          rw [hwb]
          omega
        · intro _ h1
          exact absurd h1 (by have := hcnt0 (by omega); omega)
    · have hstep : stepCall t d (b, cnt) now
          = ({ b with
                tokens := min (b.tokens + (now - b.last_refill) * b.refill_rate / 1000)
                  b.capacity,
                last_refill := now }, cnt) := by
        simp [stepCall, TokenBucket.tryAcquire, hrf, htok]
      rw [hstep]
      refine ⟨?_, ?_, ?_, ?_⟩ <;> dsimp only
      · omega
      · omega
      · have hwb : winB t { b with
              tokens := min (b.tokens + (now - b.last_refill) * b.refill_rate / 1000)
                b.capacity,
              last_refill := now }
            = if now ≤ t then 0 else (now - t) * b.refill_rate / 1000 + 1 := by
          simp [winB]
        rw [hwb]
        omega
      · intro hnow h1
        rcases Nat.lt_or_ge now t with hlt | hge
        · exact absurd h1 (by have := hcnt0 hlt; omega)
        · exact ⟨now, hge, Nat.le_refl _, by simp⟩
  · -- zero refill: the bucket is untouched by `refill`
    have hrf : b.refill now = b := by
      simp [TokenBucket.refill, hadd]
    by_cases htok : 1 ≤ b.tokens
    · by_cases hwin : t ≤ now
      · have hstep : stepCall t d (b, cnt) now
            = ({ b with tokens := b.tokens - 1 }, cnt + 1) := by
          simp [stepCall, TokenBucket.tryAcquire, hrf, htok, hwin, hnd]
        rw [hstep]
        have hwb : winB t { b with tokens := b.tokens - 1 } = winB t b := by
          simp [winB]
        refine ⟨?_, ?_, ?_, ?_⟩ <;> dsimp only
        · omega
        · omega
        · rw [hwb]; omega
        · intro _ _
          exact ⟨now, hwin, Nat.le_refl _, by omega⟩
      · have hstep : stepCall t d (b, cnt) now
            = ({ b with tokens := b.tokens - 1 }, cnt) := by
          simp [stepCall, TokenBucket.tryAcquire, hrf, htok, hwin, hnd]
        rw [hstep]
        have hwb : winB t { b with tokens := b.tokens - 1 } = winB t b := by
          simp [winB]
        refine ⟨?_, ?_, ?_, ?_⟩ <;> dsimp only
        · omega
        · omega
        · rw [hwb]; omega
        · intro h1 h2
          obtain ⟨u, hu1, hu2, hu3⟩ := hc4 h1 h2
          exact ⟨u, hu1, by omega, hu3⟩
    · have hstep : stepCall t d (b, cnt) now = (b, cnt) := by
        simp [stepCall, TokenBucket.tryAcquire, hrf, htok]
      rw [hstep]
      refine ⟨?_, ?_, ?_, ?_⟩ <;> dsimp only
      · omega
      · omega
      · omega
      · intro h1 h2
        obtain ⟨u, hu1, hu2, hu3⟩ := hc4 h1 h2
        exact ⟨u, hu1, by omega, hu3⟩

/-- One `check` call changes neither the capacity nor the refill rate. -/
theorem stepCall_fields (t d : Nat) (s : TokenBucket × Nat) (now : Nat) :
    (stepCall t d s now).1.capacity = s.1.capacity ∧
    (stepCall t d s now).1.refill_rate = s.1.refill_rate := by
  obtain ⟨b, cnt⟩ := s
  simp only [stepCall, TokenBucket.tryAcquire, TokenBucket.refill]
  split <;> split <;> simp

/-- A whole call sequence changes neither the capacity nor the refill rate. -/
theorem runFold_fields (t d : Nat) : ∀ (calls : List Nat) (s : TokenBucket × Nat),
    (calls.foldl (stepCall t d) s).1.capacity = s.1.capacity ∧
    (calls.foldl (stepCall t d) s).1.refill_rate = s.1.refill_rate
  | [], _ => ⟨rfl, rfl⟩
  | now :: rest, s => by
    have h1 := stepCall_fields t d s now
    have h2 := runFold_fields t d rest (stepCall t d s now)
    simp only [List.foldl_cons]
    exact ⟨h2.1.trans h1.1, h2.2.trans h1.2⟩

/-- The invariant survives a whole call sequence; the resulting clock bound is
either the old one or one of the call instants. -/
theorem runFold_inv (t d : Nat) : ∀ (calls : List Nat) (s : TokenBucket × Nat) (m : Nat),
    BucketInv t m s → List.Chain (· ≤ ·) m calls → (∀ x ∈ calls, x ≤ t + d) →
    ∃ m2, m ≤ m2 ∧ (m2 = m ∨ m2 ∈ calls) ∧
      BucketInv t m2 (calls.foldl (stepCall t d) s)
  | [], _, m, hinv, _, _ => ⟨m, Nat.le_refl _, Or.inl rfl, hinv⟩
  | now :: rest, s, m, hinv, hchain, hbound => by
    rw [List.chain_cons] at hchain
    have hstep : BucketInv t now (stepCall t d s now) := by
      obtain ⟨b, cnt⟩ := s
      exact stepCall_preserves_inv t d b cnt m now hinv hchain.1 (hbound now (by simp))
    obtain ⟨m2, hm1, hm2, hfin⟩ := runFold_inv t d rest (stepCall t d s now) now hstep
      hchain.2 (fun x hx => hbound x (by simp [hx]))
    refine ⟨m2, by omega, ?_, hfin⟩
    rcases hm2 with h | h
    · exact Or.inr (by simp [h])
    · exact Or.inr (by simp [h])

/-- C6 (amended): for a token bucket of capacity `C` and refill rate `r`
created at instant `τ0`, and any non-decreasing sequence of `check` call
instants up to the window end `t + d`, the number of successful calls inside
the window `[t, t + d]` is at most `C + ⌊r·d⌋ + 1` (instants in
milliseconds, so `⌊r·d⌋ = d * r / 1000`).  The extra `+ 1` over the claimed
bound is necessary: sub-token refill credit accrued before the window can
materialise inside it (see the counterexample). -/
theorem c6_rate_window (cap rate τ0 t d : Nat) (calls : List Nat)
    (hchain : List.Chain (· ≤ ·) τ0 calls)
    (hbound : ∀ x ∈ calls, x ≤ t + d) :
    (runWindow t d (TokenBucket.new cap rate τ0) calls).2
      ≤ cap + d * rate / 1000 + 1 := by
  have hbase : BucketInv t τ0 (TokenBucket.new cap rate τ0, 0) := by
    refine ⟨Nat.le_refl _, Nat.le_refl _, by dsimp [TokenBucket.new]; omega, ?_⟩
    intro _ h
    exact absurd h (by omega)
  cases calls with
  | nil => simp [runWindow]
  | cons c0 rest =>
    obtain ⟨m2, hm1, hm2, hfin⟩ :=
      runFold_inv t d (c0 :: rest) (TokenBucket.new cap rate τ0, 0) τ0 hbase hchain hbound
    have hfields := runFold_fields t d (c0 :: rest) (TokenBucket.new cap rate τ0, 0)
    have hcap : ((c0 :: rest).foldl (stepCall t d) (TokenBucket.new cap rate τ0, 0)).1.capacity
        = cap := hfields.1
    have hrate : ((c0 :: rest).foldl (stepCall t d) (TokenBucket.new cap rate τ0, 0)).1.refill_rate
        = rate := hfields.2
    have hm2d : m2 ≤ t + d := by
      rcases hm2 with h | h
      · have h1 := (List.chain_cons.mp hchain).1
        have h2 := hbound c0 (by simp)
        omega
      · exact hbound _ h
    obtain ⟨hf1, hf2, hf3, _⟩ := hfin
    have hwb : winB t ((c0 :: rest).foldl (stepCall t d) (TokenBucket.new cap rate τ0, 0)).1
        ≤ d * rate / 1000 + 1 := by
      unfold winB
      split
      · omega
      · rename_i hlt
        have h1 : ((c0 :: rest).foldl (stepCall t d)
            (TokenBucket.new cap rate τ0, 0)).1.last_refill - t ≤ d := by omega
        have h2 : (((c0 :: rest).foldl (stepCall t d)
              (TokenBucket.new cap rate τ0, 0)).1.last_refill - t)
            * ((c0 :: rest).foldl (stepCall t d)
              (TokenBucket.new cap rate τ0, 0)).1.refill_rate ≤ d * rate := by
          rw [hrate]
          exact Nat.mul_le_mul_right _ h1
        omega
    rw [runWindow]
    omega

/-- Witness for C6: capacity 2, rate 1/s, bucket created at 0 ms, window
`[900, 1100]` ms, calls at 900, 950 and 1050 ms; all three succeed, and
`3 ≤ 2 + ⌊0.2 s * 1/s⌋ + 1`. -/
theorem c6_rate_window_witness :
    (runWindow 900 200 (TokenBucket.new 2 1 0) [900, 950, 1050]).2 = 3 ∧
    (runWindow 900 200 (TokenBucket.new 2 1 0) [900, 950, 1050]).2
      ≤ 2 + 200 * 1 / 1000 + 1 := by
  constructor
  · decide
  · exact c6_rate_window 2 1 0 900 200 [900, 950, 1050]
      (List.Chain.cons (by omega) (List.Chain.cons (by omega)
        (List.Chain.cons (by omega) List.Chain.nil)))
      (by intro x hx; fin_cases hx <;> omega)

/-- Counterexample to C6 as stated: the same run makes 3 successful `check`
calls inside the window `[900, 1100]` although the claimed bound is
`C + ⌊rΔ⌋ = 2 + ⌊1 · 0.2⌋ = 2`.  The 0.9 s of refill credit accrued before
the window (worth 0 tokens, so `last_refill` was not advanced) combines with
the in-window time to mint a third token at 1050 ms. -/
theorem c6_counterexample :
    (runWindow 900 200 (TokenBucket.new 2 1 0) [900, 950, 1050]).2 = 3 ∧
    ¬ ((runWindow 900 200 (TokenBucket.new 2 1 0) [900, 950, 1050]).2
        ≤ 2 + 200 * 1 / 1000) := by
  exact ⟨by decide, by decide⟩
